import Mathlib

/-!
Shallow embedding of the multi-tier translation cache of the langtek
repository: class TranslationService in src/main.py (authoritative copy),
with the companion variant in src/langtek.py modelled separately where the
two differ (store schema and store query collation).

Remote HTTP providers are modelled by an oracle
(resp : String -> Option String) mapping a provider name to the value its
adapter function would return for the word under translation: some text for
a structurally valid parsed response, none for a network or parsing error
(every such error is caught inside the fallback loop and treated as this
provider failing).

Python character classes (the regex word class, str.lower, str.upper,
str.isupper) are modelled over Basic Latin plus Latin-1 Supplement and
Latin Extended-A/B, the script range of the Spanish source data; the
SQLite NOCASE collation folds ASCII letters only, exactly as SQLite does.
-/

namespace Langtek

/-- Python regex word-class characters: alphanumerics, underscore, and the
Latin-1 Supplement / Latin Extended letters (excluding the multiplication
and division signs), covering the scripts the program processes. -/
def isWordChar (c : Char) : Bool :=
  c.isAlphanum || c == '_' ||
    (decide (0xC0 ≤ c.toNat) && decide (c.toNat ≤ 0x24F) &&
     decide (c.toNat ≠ 0xD7) && decide (c.toNat ≠ 0xF7))

/-- The regex class of characters that are neither word characters nor
whitespace: the punctuation stripped by word_for_word_line. -/
def isPunct (c : Char) : Bool := !(isWordChar c) && !(c.isWhitespace)

/-- Python str.lower on one character, over the modelled script range. -/
def pyLowerChar (c : Char) : Char :=
  if 65 ≤ c.toNat ∧ c.toNat ≤ 90 then Char.ofNat (c.toNat + 32)
  else if 0xC0 ≤ c.toNat ∧ c.toNat ≤ 0xDE ∧ c.toNat ≠ 0xD7 then
    Char.ofNat (c.toNat + 32)
  else c

/-- Python str.upper on one character, over the modelled script range. -/
def pyUpperChar (c : Char) : Char :=
  if 97 ≤ c.toNat ∧ c.toNat ≤ 122 then Char.ofNat (c.toNat - 32)
  else if 0xE0 ≤ c.toNat ∧ c.toNat ≤ 0xFE ∧ c.toNat ≠ 0xF7 then
    Char.ofNat (c.toNat - 32)
  else c

/-- Python str.isupper on one character, over the modelled script range. -/
def pyIsUpper (c : Char) : Bool :=
  (decide (65 ≤ c.toNat) && decide (c.toNat ≤ 90)) ||
    (decide (0xC0 ≤ c.toNat) && decide (c.toNat ≤ 0xDE) && decide (c.toNat ≠ 0xD7))

/-- Python str.lower on a string. -/
def pyLower (s : String) : String := String.mk (s.toList.map pyLowerChar)

/-- Python str.strip on a character list: drop whitespace at both ends. -/
def trimChars (l : List Char) : List Char :=
  ((l.dropWhile Char.isWhitespace).reverse.dropWhile Char.isWhitespace).reverse

/-- The normalization performed at the top of lookup_word:
word.lower().strip(). -/
def normalizeWord (w : String) : String :=
  String.mk (trimChars (w.toList.map pyLowerChar))

/-- A value stored in the memory cache (the word_dict Python dict).
Entries written by the lookup paths are dicts with keys text and source;
the background worker delivers its raw provider result, a dict with keys
text and api, straight into the cache through its callback; the db editor
screen writes a bare string. -/
inductive CacheVal where
  | entry (text source : String)
  | resultDict (text api : String)
  | plain (text : String)
deriving DecidableEq

/-- One row of the translations table in main.py (columns word,
translation, source; the id and date_added columns carry no lookup
semantics beyond insertion order, kept here as list order). -/
structure DbRow where
  word : String
  translation : String
  source : String
deriving DecidableEq

/-- One per-provider rate window: entry of the translation_apis list. -/
structure ApiConfig where
  name : String
  maxPerMinute : Nat
  timestamps : List Int
deriving DecidableEq

/-- The mutable state of TranslationService in main.py that the lookup
paths touch: memory cache, store rows in insertion order, per-provider
rate windows, the global worker budget, the request queue (words whose
queued callback is the update_cache closure) and the pending set. -/
structure ServiceState where
  wordDict : List (String × CacheVal)
  db : List DbRow
  apis : List ApiConfig
  requestTimestamps : List Int
  maxRequestsPerMinute : Nat
  queue : List String
  pending : List String
deriving DecidableEq

/-- Python dict assignment: replace the value under an existing key in
place (first occurrence, and lookups only ever see the first), otherwise
append the new binding at the end, preserving insertion order. -/
def setKey (m : List (String × CacheVal)) (k : String) (v : CacheVal) :
    List (String × CacheVal) :=
  match m with
  | [] => [(k, v)]
  | p :: t => if p.1 == k then (k, v) :: t else p :: setKey t k v

/-- Python dict key insertion with value True: the pending set. -/
def addPending (l : List String) (w : String) : List String :=
  if l.contains w then l else l ++ [w]

/-- The SELECT by exact word match used by main.py (no collation clause):
first matching row in rowid order. -/
def dbFind (db : List DbRow) (w : String) : Option DbRow :=
  db.find? (fun r => r.word == w)

/-- The INSERT OR REPLACE of main.py lookup_word. The translations table
declares id INTEGER PRIMARY KEY and only a non-unique index on word, so no
conflict can arise and the statement always appends a fresh row. -/
def dbInsertMain (db : List DbRow) (w tr src : String) : List DbRow :=
  db ++ [⟨w, tr, src⟩]

/-- Prune a timestamp list: keep instants younger than 60 seconds. -/
def pruneW (now : Int) (l : List Int) : List Int :=
  l.filter (fun ts => decide (now - ts < 60))

/-- The per-provider admission critical section of
_perform_online_translation: prune, then admit and record the current
instant when the pruned list is below the limit, else deny (the pruned
list is written back in both cases). -/
def admitApi (now : Int) (api : ApiConfig) : Bool × ApiConfig :=
  let pruned := pruneW now api.timestamps
  if pruned.length < api.maxPerMinute then
    (true, ⟨api.name, api.maxPerMinute, pruned ++ [now]⟩)
  else
    (false, ⟨api.name, api.maxPerMinute, pruned⟩)

/-- The provider fallback chain _perform_online_translation: walk the
provider list in order; a rate-denied provider is skipped; an admitted
provider is invoked (its name is appended to the returned call log); a
non-empty response wins immediately, an empty response or an error falls
through to the next provider. Returns the winning (text, provider name)
if any, the updated windows, and the log of providers actually invoked. -/
def performOnline (resp : String → Option String) (now : Int) :
    List ApiConfig → Option (String × String) × List ApiConfig × List String
  | [] => (none, [], [])
  | api :: rest =>
    let step := admitApi now api
    if step.1 then
      match resp api.name with
      | some tr =>
        if tr ≠ "" then (some (tr, api.name), step.2 :: rest, [api.name])
        else
          let r := performOnline resp now rest
          (r.1, step.2 :: r.2.1, api.name :: r.2.2)
      | none =>
        let r := performOnline resp now rest
        (r.1, step.2 :: r.2.1, api.name :: r.2.2)
    else
      let r := performOnline resp now rest
      (r.1, step.2 :: r.2.1, r.2.2)

/-- The availability scan in lookup_word before deciding between a direct
call and deferral: prune each window in turn and stop at the first
provider below its limit; windows after the break keep their stale lists. -/
def checkAnyAvailable (now : Int) : List ApiConfig → Bool × List ApiConfig
  | [] => (false, [])
  | api :: rest =>
    let pruned := pruneW now api.timestamps
    if pruned.length < api.maxPerMinute then
      (true, ⟨api.name, api.maxPerMinute, pruned⟩ :: rest)
    else
      let r := checkAnyAvailable now rest
      (r.1, ⟨api.name, api.maxPerMinute, pruned⟩ :: r.2)

/-- Result of one lookup_word call: the returned string, the state after
the call, the providers actually invoked, and the number of store SELECT
attempts issued. -/
structure LookupResult where
  ret : String
  state : ServiceState
  providerCalls : List String
  storeReads : Nat
deriving DecidableEq

/-- The cache entry written by the catch-all exception handler of
lookup_word. -/
def errorVal : CacheVal := CacheVal.entry "[error]" "error"

/-- lookup_word of main.py. The storeFails flag models the store SELECT
raising (a persistence failure), which lands in the catch-all handler.
A cached resultDict value (left by the worker callback) lacks the source
key, so reading it raises KeyError, also landing in the catch-all
handler. -/
def lookupWord (resp : String → Option String) (storeFails : Bool) (now : Int)
    (st : ServiceState) (word : String) : LookupResult :=
  if word = "" then ⟨"[no translation found]", st, [], 0⟩
  else
    let wl := normalizeWord word
    match List.lookup wl st.wordDict with
    | some (CacheVal.entry t _) => ⟨t, st, [], 0⟩
    | some (CacheVal.plain t) => ⟨t, st, [], 0⟩
    | some (CacheVal.resultDict _ _) =>
      ⟨"[error]", { st with wordDict := setKey st.wordDict wl errorVal }, [], 0⟩
    | none =>
      if storeFails then
        ⟨"[error]", { st with wordDict := setKey st.wordDict wl errorVal }, [], 1⟩
      else
        match dbFind st.db wl with
        | some r =>
          ⟨r.translation,
           { st with wordDict := setKey st.wordDict wl (CacheVal.entry r.translation r.source) },
           [], 1⟩
        | none =>
          let avail := checkAnyAvailable now st.apis
          if avail.1 then
            let r := performOnline resp now avail.2
            match r.1 with
            | some (tr, apiName) =>
              ⟨tr,
               { st with apis := r.2.1,
                         db := dbInsertMain st.db wl tr apiName,
                         wordDict := setKey st.wordDict wl (CacheVal.entry tr apiName) },
               r.2.2, 1⟩
            | none =>
              ⟨"[no translation found]", { st with apis := r.2.1 }, r.2.2, 1⟩
          else
            ⟨"[translating...]",
             { st with apis := avail.2,
                       queue := st.queue ++ [word],
                       pending := addPending st.pending word },
             [], 1⟩

/-- Argument delivered to the queued completion callback: a plain string,
or the raw provider result dict (keys text and api). -/
inductive CbArg where
  | str (s : String)
  | dict (text api : String)
deriving DecidableEq

/-- The pending sweep of _check_pending_translations invoked by the
update_cache callback: drop every pending word whose lowercased form is
now present in the memory cache. -/
def sweepPending (pending : List String) (cache : List (String × CacheVal)) :
    List String :=
  pending.filter (fun w => (List.lookup (pyLower w) cache).isNone)

/-- The update_cache callback closed over in lookup_word: a dict argument
is stored raw under the lowercased word, a string argument is wrapped as
an entry with source delayed_api; then the pending sweep runs. -/
def updateCache (st : ServiceState) (word : String) (arg : CbArg) : ServiceState :=
  let wl := pyLower word
  let cache' :=
    match arg with
    | CbArg.dict t a => setKey st.wordDict wl (CacheVal.resultDict t a)
    | CbArg.str s => setKey st.wordDict wl (CacheVal.entry s "delayed_api")
  { st with wordDict := cache', pending := sweepPending st.pending cache' }

/-- Result of the worker processing one dequeued request: the state after
the iteration, whether the global budget forced a sleep, the providers
invoked, and the argument handed to the completion callback. -/
structure WorkerResult where
  state : ServiceState
  slept : Bool
  providerCalls : List String
  callbackArg : CbArg
deriving DecidableEq

/-- One iteration of _process_translation_queue on a dequeued request
whose callback is the update_cache closure. The global budget section
runs first and unconditionally: prune request_timestamps, sleep when the
pruned list has reached the per-minute maximum, then record the current
instant. Only then is the store consulted; a row with a non-empty
translation short-circuits the provider chain. When the chain succeeds,
the INSERT OR IGNORE binds the raw result dict as the translation
parameter, which raises in the sqlite binding layer and is swallowed by
the surrounding handler, leaving the store unchanged; the callback then
receives that dict. On total chain failure the callback receives the
not-found placeholder string. -/
def workerStep (resp : String → Option String) (now : Int) (st : ServiceState)
    (word : String) : WorkerResult :=
  let pruned := pruneW now st.requestTimestamps
  let slept := decide (st.maxRequestsPerMinute ≤ pruned.length)
  let st1 : ServiceState := { st with requestTimestamps := pruned ++ [now] }
  let wl := pyLower word
  let fromDb : Option String :=
    match dbFind st1.db wl with
    | some r => if r.translation = "" then none else some r.translation
    | none => none
  match fromDb with
  | some tr => ⟨updateCache st1 word (CbArg.str tr), slept, [], CbArg.str tr⟩
  | none =>
    let r := performOnline resp now st1.apis
    let st2 : ServiceState := { st1 with apis := r.2.1 }
    match r.1 with
    | some (tr, api) =>
      ⟨updateCache st2 word (CbArg.dict tr api), slept, r.2.2, CbArg.dict tr api⟩
    | none =>
      ⟨updateCache st2 word (CbArg.str "[no translation found]"), slept, r.2.2,
       CbArg.str "[no translation found]"⟩

/-- First character upper-cased, rest unchanged: the capitalization
re-application of word_for_word_line. -/
def capFirst (s : String) : String :=
  match s.toList with
  | [] => ""
  | c :: cs => String.mk (pyUpperChar c :: cs)

/-- The leading punctuation run of a token (regex group of leading
characters outside word class and whitespace, longest match). -/
def tokenPre (wlist : List Char) : List Char := wlist.takeWhile isPunct

/-- The trailing punctuation run of what remains after the leading run
(regex lazy first group and trailing punctuation group, so the longest
trailing run). -/
def tokenSuf (wlist : List Char) : List Char :=
  ((wlist.drop (tokenPre wlist).length).reverse.takeWhile isPunct).reverse

/-- The clean core: the character slice of the token between the length
of the leading run and the token length minus the length of the trailing
run, taken only when at least one run is non-empty, else the whole
token. -/
def tokenClean (wlist : List Char) : List Char :=
  if tokenPre wlist ≠ [] ∨ tokenSuf wlist ≠ [] then
    (wlist.drop (tokenPre wlist).length).take
      (wlist.length - (tokenSuf wlist).length - (tokenPre wlist).length)
  else wlist

/-- One token of word_for_word_line: strip the leading punctuation run
and the trailing punctuation run, slice the clean core out of the token
by lengths, pass an empty core through unchanged, otherwise look up the
lowercased core and either keep the original token (lookup returned the
not-found or lookup-error sentinel) or re-apply capitalization and
re-attach the punctuation. -/
def processToken (resp : String → Option String) (storeFails : Bool) (now : Int)
    (st : ServiceState) (tok : String) : String × ServiceState :=
  let wlist := tok.toList
  match tokenClean wlist with
  | [] => (tok, st)
  | c :: cs =>
    let isCap := pyIsUpper c
    let r := lookupWord resp storeFails now st
      (String.mk ((c :: cs).map pyLowerChar))
    if r.ret = "[no translation found]" ∨ r.ret = "[lookup error]" then
      (String.mk (tokenPre wlist ++ (c :: cs) ++ tokenSuf wlist), r.state)
    else
      let t := if isCap ∧ r.ret ≠ "" then capFirst r.ret else r.ret
      (String.mk (tokenPre wlist) ++ t ++ String.mk (tokenSuf wlist), r.state)

/-- Accumulator-based splitter on whitespace runs: the current partial
token is carried reversed. -/
def splitWsAux : List Char → List Char → List (List Char)
  | [], acc => if acc = [] then [] else [acc.reverse]
  | c :: t, acc =>
    if c.isWhitespace then
      if acc = [] then splitWsAux t [] else acc.reverse :: splitWsAux t []
    else splitWsAux t (c :: acc)

/-- Python str.split with no separator: whitespace runs as delimiters,
no empty tokens. -/
def pySplitWs (line : String) : List String :=
  (splitWsAux line.toList []).map String.mk

/-- Process a token list left to right, threading the service state. -/
def processTokens (resp : String → Option String) (storeFails : Bool) (now : Int)
    (st : ServiceState) : List String → List String × ServiceState
  | [] => ([], st)
  | t :: ts =>
    let r := processToken resp storeFails now st t
    let rest := processTokens resp storeFails now r.2 ts
    (r.1 :: rest.1, rest.2)

/-- word_for_word_line of main.py: split on whitespace, process each
token, join with single spaces. -/
def wordForWordLine (resp : String → Option String) (storeFails : Bool) (now : Int)
    (st : ServiceState) (line : String) : String × ServiceState :=
  let r := processTokens resp storeFails now st (pySplitWs line)
  (String.intercalate " " r.1, r.2)

/-- One row of the translations table in langtek.py (columns spanish
PRIMARY KEY, english). -/
structure LtRow where
  spanish : String
  english : String
deriving DecidableEq

/-- SQLite NOCASE collation: folds the 26 ASCII upper-case letters only. -/
def asciiLowerChar (c : Char) : Char :=
  if 65 ≤ c.toNat ∧ c.toNat ≤ 90 then Char.ofNat (c.toNat + 32) else c

/-- NOCASE folding of a string. -/
def sqliteNoCase (s : String) : String := String.mk (s.toList.map asciiLowerChar)

/-- The SELECT of langtek.py lookup_word: spanish = ? COLLATE NOCASE,
first matching row in rowid order. -/
def ltDbFind (db : List LtRow) (w : String) : Option LtRow :=
  db.find? (fun r => sqliteNoCase r.spanish == sqliteNoCase w)

/-- The INSERT OR REPLACE of langtek.py: spanish is declared PRIMARY KEY
(binary collation), so a row with the exact same spanish value is deleted
and the fresh row appended with a new rowid. -/
def ltDbInsertOrReplace (db : List LtRow) (w tr : String) : List LtRow :=
  db.filter (fun r => !(r.spanish == w)) ++ [⟨w, tr⟩]

/-- The mutable state of TranslationService in langtek.py touched by its
lookup path. -/
structure LtState where
  wordDict : List (String × CacheVal)
  db : List LtRow
  apis : List ApiConfig
  queue : List String
  pending : List String
deriving DecidableEq

/-- Result of one langtek.py lookup_word call, mirroring LookupResult. -/
structure LtLookupResult where
  ret : String
  state : LtState
  providerCalls : List String
  storeReads : Nat
deriving DecidableEq

/-- lookup_word of langtek.py. Identical control flow to the main.py
copy except: the store query matches the spanish column under the NOCASE
collation, a store hit is cached with source database, and the store
write-back replaces by primary key. -/
def ltLookupWord (resp : String → Option String) (storeFails : Bool) (now : Int)
    (st : LtState) (word : String) : LtLookupResult :=
  if word = "" then ⟨"[no translation found]", st, [], 0⟩
  else
    let wl := normalizeWord word
    match List.lookup wl st.wordDict with
    | some (CacheVal.entry t _) => ⟨t, st, [], 0⟩
    | some (CacheVal.plain t) => ⟨t, st, [], 0⟩
    | some (CacheVal.resultDict _ _) =>
      ⟨"[error]", { st with wordDict := setKey st.wordDict wl errorVal }, [], 0⟩
    | none =>
      if storeFails then
        ⟨"[error]", { st with wordDict := setKey st.wordDict wl errorVal }, [], 1⟩
      else
        match ltDbFind st.db wl with
        | some r =>
          ⟨r.english,
           { st with wordDict := setKey st.wordDict wl (CacheVal.entry r.english "database") },
           [], 1⟩
        | none =>
          let avail := checkAnyAvailable now st.apis
          if avail.1 then
            let r := performOnline resp now avail.2
            match r.1 with
            | some (tr, apiName) =>
              ⟨tr,
               { st with apis := r.2.1,
                         db := ltDbInsertOrReplace st.db wl tr,
                         wordDict := setKey st.wordDict wl (CacheVal.entry tr apiName) },
               r.2.2, 1⟩
            | none =>
              ⟨"[no translation found]", { st with apis := r.2.1 }, r.2.2, 1⟩
          else
            ⟨"[translating...]",
             { st with apis := avail.2,
                       queue := st.queue ++ [word],
                       pending := addPending st.pending word },
             [], 1⟩

/-- The response-selection logic of _translate_mymemory, applied to the
already unescaped translatedText field and the list of translation values
present in the matches array: strip the primary text; when it equals the
input word case-insensitively, prefer the first match value that differs
from the word case-insensitively; when no such match exists the echoed
primary text is still returned. -/
def mymemorySelect (word tt : String) (matchList : List String) : String :=
  let translation := String.mk (trimChars tt.toList)
  if pyLower translation = pyLower word then
    match matchList.find? (fun m => !(pyLower m == pyLower word)) with
    | some m => m
    | none => translation
  else translation

/-! ### Fixtures for concrete instances -/

/-- Two providers with free budget, as freshly constructed windows. -/
def apisFree : List ApiConfig := [⟨"LibreTranslate", 5, []⟩, ⟨"Lingva", 8, []⟩]

/-- A single provider whose window is full at instant 0: one recorded
call with a per-minute limit of one. -/
def apisBusy : List ApiConfig := [⟨"LibreTranslate", 1, [0]⟩]

/-- Empty service with free providers. -/
def stFree : ServiceState := ⟨[], [], apisFree, [], 10, [], []⟩

/-- Empty service with a saturated provider set. -/
def stBusy : ServiceState := ⟨[], [], apisBusy, [], 10, [], []⟩

/-- Store with one row whose key is capitalized (as the CSV importer
inserts rows unmodified), behind a saturated provider set. -/
def stC1cap : ServiceState := ⟨[], [⟨"Hola", "hello", "manual"⟩], apisBusy, [], 10, [], []⟩

/-- Store with one lowercase row whose source column is google. -/
def stC1src : ServiceState := ⟨[], [⟨"hola", "hello", "google"⟩], apisFree, [], 10, [], []⟩

/-- The langtek.py store with one row whose key is capitalized. -/
def ltC1 : LtState := ⟨[], [⟨"Hola", "hello"⟩], apisFree, [], []⟩

/-- A store already holding the queued word, with an empty global
budget window. -/
def stC7 : ServiceState := ⟨[], [⟨"hola", "hello", "manual"⟩], apisFree, [], 10, [], []⟩

/-- The timestamps of a window list older than 60 seconds: exactly the
entries discarded by pruning. -/
def staleW (now : Int) (l : List Int) : List Int :=
  l.filter (fun ts => !(decide (now - ts < 60)))

/-- A sequence of admission decisions against one provider window, one
per attempt instant, each running the prune-check-append critical
section; returns the instants at which a call was admitted. -/
def admittedRun (api : ApiConfig) : List Int → List Int
  | [] => []
  | now :: rest =>
    let s := admitApi now api
    (if s.1 then [now] else []) ++ admittedRun s.2 rest

/-- Number of instants of the list inside the rolling 60-second window
ending at t. -/
def cntW (t : Int) (l : List Int) : Nat :=
  l.countP (fun ts => decide (t - ts < 60 ∧ ts ≤ t))

/-! ### Helper lemmas -/

theorem lookup_setKey_self (m : List (String × CacheVal)) (k : String) (v : CacheVal) :
    List.lookup k (setKey m k v) = some v := by
  induction m with
  | nil => simp [setKey, List.lookup]
  | cons p t ih =>
    by_cases h : (p.1 == k) = true
    · simp [setKey, h, List.lookup]
    · have h2 : (k == p.1) = false := by
        refine beq_eq_false_iff_ne.mpr ?_
        intro e
        exact h (by simp [e])
      simp [setKey, h, List.lookup, h2, ih]

/-! ### C9 -/

/-- C9. The claim states that every input that is empty after
normalization returns NotFound immediately with no side effects. The
code checks emptiness before normalizing, so a whitespace-only input
passes the guard: with all providers saturated it is enqueued, marked
pending and answered with the translating placeholder, not NotFound. -/
theorem C9_counterexample :
    normalizeWord " " = "" ∧
    (lookupWord (fun _ => none) false 0 stBusy " ").ret = "[translating...]" ∧
    (lookupWord (fun _ => none) false 0 stBusy " ").ret ≠ "[no translation found]" ∧
    (lookupWord (fun _ => none) false 0 stBusy " ").state.pending = [" "] ∧
    (lookupWord (fun _ => none) false 0 stBusy " ").state.queue = [" "] := by
  refine ⟨rfl, rfl, ?_, rfl, rfl⟩
  decide

/-- C9 (amended). Only the literally empty input string short-circuits:
lookup_word returns the not-found sentinel immediately, leaves the state
untouched, performs no store read and no provider call. An input that is
empty only after normalization proceeds through the normal flow. -/
theorem C9_empty_input_amended (resp : String → Option String) (storeFails : Bool)
    (now : Int) (st : ServiceState) :
    lookupWord resp storeFails now st "" =
      ⟨"[no translation found]", st, [], 0⟩ := rfl

/-! ### C10 -/

/-- C10. If the body of lookup_word raises (modelled here by the store
read failing) for a word that is not yet cached, the handler caches the
entry with text [error] and source error under the lowercased word and
returns [error]; afterwards every lookup of the same word answers
[error] straight from the memory cache, with no store access, no
provider call, and no state change, until the entry is removed. -/
theorem C10_error_cached (resp : String → Option String) (now : Int)
    (st : ServiceState) (word : String) (hw : word ≠ "")
    (hc : List.lookup (normalizeWord word) st.wordDict = none) :
    (lookupWord resp true now st word).ret = "[error]" ∧
    List.lookup (normalizeWord word) (lookupWord resp true now st word).state.wordDict
      = some (CacheVal.entry "[error]" "error") ∧
    ∀ (resp2 : String → Option String) (storeFails2 : Bool) (now2 : Int),
      lookupWord resp2 storeFails2 now2 (lookupWord resp true now st word).state word
        = ⟨"[error]", (lookupWord resp true now st word).state, [], 0⟩ := by
  have h1 : lookupWord resp true now st word =
      ⟨"[error]", { st with wordDict := setKey st.wordDict (normalizeWord word) errorVal },
       [], 1⟩ := by
    simp [lookupWord, if_neg hw, hc]
  refine ⟨by rw [h1], ?_, ?_⟩
  · rw [h1]
    exact lookup_setKey_self st.wordDict (normalizeWord word) errorVal
  · intro resp2 storeFails2 now2
    rw [h1]
    simp only [lookupWord, if_neg hw]
    rw [lookup_setKey_self st.wordDict (normalizeWord word) errorVal]
    simp [errorVal]

/-- Witness for C10 at a concrete input. -/
theorem C10_witness :
    ("perro" ≠ "") ∧
    (lookupWord (fun _ => none) true 0 stFree "perro").ret = "[error]" := by
  refine ⟨by decide, ?_⟩
  exact (C10_error_cached (fun _ => none) 0 stFree "perro" (by decide) rfl).1

/-! ### C4 -/

theorem checkAnyAvailable_eq_false (now : Int) (apis : List ApiConfig)
    (h : ∀ api ∈ apis, api.maxPerMinute ≤ (pruneW now api.timestamps).length) :
    (checkAnyAvailable now apis).1 = false := by
  induction apis with
  | nil => rfl
  | cons api rest ih =>
    have hh : ¬ ((pruneW now api.timestamps).length < api.maxPerMinute) :=
      Nat.not_lt.mpr (h api (by simp))
    have ht : (checkAnyAvailable now rest).1 = false :=
      ih (fun a ha => h a (by simp [ha]))
    simp [checkAnyAvailable, hh, ht]

/-- C4. For a word that is non-empty, absent from the memory cache and
absent from the store, when every configured provider window is full at
the current instant (its pruned timestamp list has reached its limit),
lookup_word enqueues the word for background processing, marks it in the
pending set, invokes no provider, leaves cache and store untouched, and
immediately returns the translating placeholder. -/
theorem C4_defer_when_saturated (resp : String → Option String) (now : Int)
    (st : ServiceState) (word : String) (hw : word ≠ "")
    (hc : List.lookup (normalizeWord word) st.wordDict = none)
    (hd : dbFind st.db (normalizeWord word) = none)
    (hfull : ∀ api ∈ st.apis, api.maxPerMinute ≤ (pruneW now api.timestamps).length) :
    lookupWord resp false now st word =
      ⟨"[translating...]",
       { st with apis := (checkAnyAvailable now st.apis).2,
                 queue := st.queue ++ [word],
                 pending := addPending st.pending word },
       [], 1⟩ := by
  have hfalse := checkAnyAvailable_eq_false now st.apis hfull
  simp [lookupWord, if_neg hw, hc, hd, hfalse]

/-- Witness for C4 at a concrete saturated state. -/
theorem C4_witness :
    lookupWord (fun _ => none) false 0 stBusy "perro" =
      ⟨"[translating...]",
       { stBusy with apis := (checkAnyAvailable 0 stBusy.apis).2,
                     queue := ["perro"],
                     pending := ["perro"] },
       [], 1⟩ := by
  exact C4_defer_when_saturated (fun _ => none) 0 stBusy "perro"
    (by decide) rfl rfl (by decide)

/-! ### C5 -/

theorem performOnline_eq_none (resp : String → Option String) (now : Int)
    (apis : List ApiConfig) (h : ∀ n, resp n = none) :
    (performOnline resp now apis).1 = none := by
  induction apis with
  | nil => rfl
  | cons api rest ih =>
    by_cases hs : (admitApi now api).1 = true
    · simp [performOnline, hs, h, ih]
    · simp [performOnline, hs, ih]

/-- C5. For a word that is non-empty, absent from the memory cache and
absent from the store, when at least one provider window has room but
the fallback chain produces nothing (every provider skipped, erroring,
or answering empty), lookup_word returns the not-found sentinel and
writes nothing: memory cache, store, queue and pending set are exactly
as before, so the negative result is not cached and a retry stays
possible. Only the rate windows carry the pruning and the recorded
attempts. -/
theorem C5_total_failure_no_cache (resp : String → Option String) (now : Int)
    (st : ServiceState) (word : String) (hw : word ≠ "")
    (hc : List.lookup (normalizeWord word) st.wordDict = none)
    (hd : dbFind st.db (normalizeWord word) = none)
    (havail : (checkAnyAvailable now st.apis).1 = true)
    (hfail : (performOnline resp now (checkAnyAvailable now st.apis).2).1 = none) :
    (lookupWord resp false now st word).ret = "[no translation found]" ∧
    (lookupWord resp false now st word).state.wordDict = st.wordDict ∧
    (lookupWord resp false now st word).state.db = st.db ∧
    (lookupWord resp false now st word).state.queue = st.queue ∧
    (lookupWord resp false now st word).state.pending = st.pending := by
  have h1 : lookupWord resp false now st word =
      ⟨"[no translation found]",
       { st with apis := (performOnline resp now (checkAnyAvailable now st.apis).2).2.1 },
       (performOnline resp now (checkAnyAvailable now st.apis).2).2.2, 1⟩ := by
    simp [lookupWord, if_neg hw, hc, hd, havail, hfail]
  rw [h1]
  exact ⟨rfl, rfl, rfl, rfl, rfl⟩

/-- Witness for C5: free providers, all of them erroring. -/
theorem C5_witness :
    (lookupWord (fun _ => none) false 0 stFree "perro").ret = "[no translation found]" ∧
    (lookupWord (fun _ => none) false 0 stFree "perro").state.wordDict = [] ∧
    (lookupWord (fun _ => none) false 0 stFree "perro").state.db = [] := by
  have h := C5_total_failure_no_cache (fun _ => none) 0 stFree "perro"
    (by decide) rfl rfl rfl
    (performOnline_eq_none (fun _ => none) 0 (checkAnyAvailable 0 stFree.apis).2 (fun _ => rfl))
  exact ⟨h.1, h.2.1, h.2.2.1⟩

/-! ### C1 -/

/-- C1. The claim asserts a case-insensitive store match and provenance
database for every store hit. In main.py the SELECT has no collation
clause: a store row whose word column is capitalized (which the NOCASE
comparison of the claim would match) is missed by the lowercased exact
probe, and the lookup falls through to deferral without returning Found
or populating the cache; moreover on an exact hit the cache entry
carries the source column of the row (here google), not database. -/
theorem C1_counterexample :
    sqliteNoCase "Hola" = sqliteNoCase (normalizeWord "hola") ∧
    (lookupWord (fun _ => none) false 0 stC1cap "hola").ret = "[translating...]" ∧
    (lookupWord (fun _ => none) false 0 stC1cap "hola").ret ≠ "hello" ∧
    (lookupWord (fun _ => none) false 0 stC1cap "hola").state.wordDict = [] ∧
    (lookupWord (fun _ => none) false 0 stC1src "hola").state.wordDict =
      [("hola", CacheVal.entry "hello" "google")] ∧
    CacheVal.entry "hello" "google" ≠ CacheVal.entry "hello" "database" := by
  refine ⟨by decide, rfl, by decide, rfl, rfl, by decide⟩

/-- C1 (amended). A store hit never invokes a provider and populates the
memory cache, in both copies. In main.py the store query is an exact
match of the lowercased normalized word and the cached provenance is the
source column of the row; in langtek.py the query matches the spanish
column case-insensitively (ASCII NOCASE) and the cached provenance is
the literal database tag. -/
theorem C1_store_hit_amended :
    (∀ (resp : String → Option String) (now : Int) (st : ServiceState)
       (word : String) (r : DbRow), word ≠ "" →
       List.lookup (normalizeWord word) st.wordDict = none →
       dbFind st.db (normalizeWord word) = some r →
       lookupWord resp false now st word =
         ⟨r.translation,
          { st with wordDict := setKey st.wordDict (normalizeWord word)
                      (CacheVal.entry r.translation r.source) },
          [], 1⟩) ∧
    (∀ (resp : String → Option String) (now : Int) (st : LtState)
       (word : String) (r : LtRow), word ≠ "" →
       List.lookup (normalizeWord word) st.wordDict = none →
       ltDbFind st.db (normalizeWord word) = some r →
       ltLookupWord resp false now st word =
         ⟨r.english,
          { st with wordDict := setKey st.wordDict (normalizeWord word)
                      (CacheVal.entry r.english "database") },
          [], 1⟩) := by
  constructor
  · intro resp now st word r hw hc hd
    simp [lookupWord, if_neg hw, hc, hd]
  · intro resp now st word r hw hc hd
    simp [ltLookupWord, if_neg hw, hc, hd]

/-- Witness for C1 at concrete stores: an exact-lowercase hit in the
main.py model and a NOCASE hit in the langtek.py model, both answered
with no provider call. -/
theorem C1_witness :
    (lookupWord (fun _ => none) false 0 stC1src "hola").ret = "hello" ∧
    (lookupWord (fun _ => none) false 0 stC1src "hola").providerCalls = [] ∧
    (ltLookupWord (fun _ => none) false 0 ltC1 "HOLA").ret = "hello" ∧
    (ltLookupWord (fun _ => none) false 0 ltC1 "HOLA").providerCalls = [] := by
  have h1 := C1_store_hit_amended.1 (fun _ => none) 0 stC1src "hola"
    ⟨"hola", "hello", "google"⟩ (by decide) rfl rfl
  have h2 := C1_store_hit_amended.2 (fun _ => none) 0 ltC1 "HOLA"
    ⟨"Hola", "hello"⟩ (by decide) rfl (by decide)
  rw [h1, h2]
  exact ⟨rfl, rfl, rfl, rfl⟩

/-! ### C6 -/

/-- C6. The claim asserts that the fallback chain rejects a translation
equal to the input word case-insensitively. The chain only tests
truthiness (non-emptiness): with an empty cache and store and a provider
echoing the word itself, lookup of hola accepts, returns and even
persists the no-op translation hola; and the MyMemory selection logic
returns the echoed primary text whenever no differing alternative match
exists. -/
theorem C6_counterexample :
    (performOnline (fun _ => some "hola") 0 apisFree).1 =
      some ("hola", "LibreTranslate") ∧
    (lookupWord (fun _ => some "hola") false 0 stFree "hola").ret = "hola" ∧
    (lookupWord (fun _ => some "hola") false 0 stFree "hola").state.db =
      [⟨"hola", "hola", "LibreTranslate"⟩] ∧
    pyLower "hola" = pyLower "hola" ∧
    mymemorySelect "hola" "hola" [] = "hola" := by
  exact ⟨rfl, rfl, rfl, rfl, rfl⟩

/-- C6 (amended). Every translation returned by the fallback chain is
non-empty, and an admitted provider answering the empty string causes
fallthrough to the rest of the chain; but there is no same-as-input
rejection at the chain level, so an echoed translation is accepted (the
MyMemory adapter alone internally prefers a differing alternative match
and still returns the echo when none exists). -/
theorem C6_nonempty_amended :
    (∀ (resp : String → Option String) (now : Int) (apis : List ApiConfig)
       (tr api : String),
       (performOnline resp now apis).1 = some (tr, api) → tr ≠ "") ∧
    (∀ (resp : String → Option String) (now : Int) (api : ApiConfig)
       (rest : List ApiConfig),
       (admitApi now api).1 = true → resp api.name = some "" →
       (performOnline resp now (api :: rest)).1 = (performOnline resp now rest).1) := by
  constructor
  · intro resp now apis
    induction apis with
    | nil => intro tr api h; simp [performOnline] at h
    | cons a rest ih =>
      intro tr api h
      by_cases hs : (admitApi now a).1 = true
      · rcases hr : resp a.name with _ | t
        · simp [performOnline, hs, hr] at h
          exact ih tr api h
        · by_cases ht : t = ""
          · subst ht
            simp [performOnline, hs, hr] at h
            exact ih tr api h
          · simp [performOnline, hs, hr, ht] at h
            rw [← h.1]
            exact ht
      · simp [performOnline, hs] at h
        exact ih tr api h
  · intro resp now api rest hs hr
    simp [performOnline, hs, hr]

/-- Witness for C6 (amended): a concrete chain run returning a non-empty
text, with the hypotheses discharged on that run. -/
theorem C6_witness :
    (performOnline (fun _ => some "hello") 0 apisFree).1 =
      some ("hello", "LibreTranslate") ∧ "hello" ≠ "" := by
  refine ⟨rfl, ?_⟩
  exact C6_nonempty_amended.1 (fun _ => some "hello") 0 apisFree "hello"
    "LibreTranslate" rfl

/-! ### C7 -/

/-- C7. The claim asserts that for a dequeued request whose word is
already stored, the worker performs no global rate admission: no budget
timestamp recorded and no rate-limit sleep. In the code the global
budget section runs before the store re-check, so even for the stored
word hola a timestamp is appended to the previously empty global window.
The provider-skipping half of the claim does hold on this input: no
provider is invoked and the callback receives the stored value. -/
theorem C7_counterexample :
    stC7.requestTimestamps = [] ∧
    (workerStep (fun _ => none) 5 stC7 "hola").state.requestTimestamps = [5] ∧
    (workerStep (fun _ => none) 5 stC7 "hola").state.requestTimestamps ≠
      stC7.requestTimestamps ∧
    (workerStep (fun _ => none) 5 stC7 "hola").providerCalls = [] ∧
    (workerStep (fun _ => none) 5 stC7 "hola").callbackArg = CbArg.str "hello" := by
  exact ⟨rfl, rfl, by decide, rfl, rfl⟩

/-- C7 (amended). The worker performs the global admission
unconditionally before re-checking the store: it prunes the global
window, sleeps exactly when the pruned window has reached the per-minute
maximum, and records the current instant. For a request whose word is
already stored with a non-empty translation it then skips the provider
chain entirely — no provider invoked, per-provider windows and store
untouched — and hands the stored value to the completion callback. -/
theorem C7_store_hit_worker_amended (resp : String → Option String) (now : Int)
    (st : ServiceState) (word : String) (r : DbRow)
    (hd : dbFind st.db (pyLower word) = some r) (hne : r.translation ≠ "") :
    workerStep resp now st word =
      ⟨updateCache { st with requestTimestamps := pruneW now st.requestTimestamps ++ [now] }
         word (CbArg.str r.translation),
       decide (st.maxRequestsPerMinute ≤ (pruneW now st.requestTimestamps).length),
       [], CbArg.str r.translation⟩ := by
  simp [workerStep, hd, hne]

/-- Witness for C7 (amended) at the concrete stored word. -/
theorem C7_witness :
    workerStep (fun _ => none) 5 stC7 "hola" =
      ⟨updateCache { stC7 with requestTimestamps := [5] } "hola" (CbArg.str "hello"),
       false, [], CbArg.str "hello"⟩ := by
  have h := C7_store_hit_worker_amended (fun _ => none) 5 stC7 "hola"
    ⟨"hola", "hello", "manual"⟩ rfl (by decide)
  exact h

/-! ### C3 -/

/-- The synchronous lookup path only ever appends store rows: existing
rows are never modified, replaced or deleted. -/
theorem lookupWord_db_append (resp : String → Option String) (storeFails : Bool)
    (now : Int) (st : ServiceState) (word : String) :
    ∃ tail, (lookupWord resp storeFails now st word).state.db = st.db ++ tail := by
  simp only [lookupWord, dbInsertMain]
  repeat' split
  all_goals first
    | exact ⟨[], (List.append_nil _).symm⟩
    | exact ⟨_, rfl⟩

/-- The worker never writes the store: on a store hit it reuses the row,
and on provider success its INSERT binds the raw result dict, which the
binding layer rejects (the error is swallowed), leaving the store as it
was. -/
theorem workerStep_db_eq (resp : String → Option String) (now : Int)
    (st : ServiceState) (word : String) :
    (workerStep resp now st word).state.db = st.db := by
  simp only [workerStep, updateCache]
  repeat' split
  all_goals rfl

/-- C3. No automatic write path mutates an existing store row, so a row
with source manual is never overwritten: the lookup path only appends
rows (and, because reads take the first row in rowid order, a prior
manual row keeps winning every read of its word), and the worker leaves
the store unchanged entirely. Only a manual edit (the db editor UPDATE
or DELETE, outside the automatic paths) can change such an entry. -/
theorem C3_manual_protected :
    (∀ (resp : String → Option String) (storeFails : Bool) (now : Int)
       (st : ServiceState) (word : String),
       ∃ tail, (lookupWord resp storeFails now st word).state.db = st.db ++ tail) ∧
    (∀ (resp : String → Option String) (now : Int) (st : ServiceState)
       (word : String),
       (workerStep resp now st word).state.db = st.db) ∧
    (∀ (resp : String → Option String) (storeFails : Bool) (now : Int)
       (st : ServiceState) (word w : String) (r : DbRow),
       dbFind st.db w = some r →
       dbFind (lookupWord resp storeFails now st word).state.db w = some r) ∧
    (∀ (resp : String → Option String) (storeFails : Bool) (now : Int)
       (st : ServiceState) (word : String) (r : DbRow),
       r ∈ st.db → r.source = "manual" →
       r ∈ (lookupWord resp storeFails now st word).state.db) := by
  refine ⟨lookupWord_db_append, workerStep_db_eq, ?_, ?_⟩
  · intro resp storeFails now st word w r h
    obtain ⟨tail, ht⟩ := lookupWord_db_append resp storeFails now st word
    rw [ht]
    simp only [dbFind] at h ⊢
    rw [List.find?_append, h]
    rfl
  · intro resp storeFails now st word r hmem _
    obtain ⟨tail, ht⟩ := lookupWord_db_append resp storeFails now st word
    rw [ht]
    exact List.mem_append_left tail hmem

/-- Witness for C3: a manual row survives a lookup of another word that
goes through the full provider path, and is still the row read back. -/
theorem C3_witness :
    dbFind (lookupWord (fun _ => some "bye") false 0 stC7 "adios").state.db "hola"
      = some ⟨"hola", "hello", "manual"⟩ ∧
    (⟨"hola", "hello", "manual"⟩ : DbRow) ∈
      (lookupWord (fun _ => some "bye") false 0 stC7 "adios").state.db := by
  constructor
  · exact C3_manual_protected.2.2.1 (fun _ => some "bye") false 0 stC7 "adios"
      "hola" ⟨"hola", "hello", "manual"⟩ rfl
  · exact C3_manual_protected.2.2.2 (fun _ => some "bye") false 0 stC7 "adios"
      ⟨"hola", "hello", "manual"⟩ (by decide) rfl

/-! ### C8 -/

/-- Slicing a concatenation by the outer lengths returns the middle
part. -/
theorem slice_recomp (pre mid suf l : List Char)
    (h : l = pre ++ mid ++ suf) :
    (l.drop pre.length).take (l.length - suf.length - pre.length) = mid := by
  subst h
  have hd : (pre ++ mid ++ suf).drop pre.length = mid ++ suf := by
    rw [List.append_assoc]
    exact List.drop_left _ _
  rw [hd]
  have hlen : (pre ++ mid ++ suf).length - suf.length - pre.length = mid.length := by
    simp only [List.length_append]
    omega
  rw [hlen]
  exact List.take_left _ _

/-- The length-based slicing of word_for_word_line reconstructs the
token: leading punctuation run, clean core and trailing punctuation run
concatenate back to the original character list. -/
theorem token_recomp (wlist : List Char) :
    tokenPre wlist ++ tokenClean wlist ++ tokenSuf wlist = wlist := by
  obtain ⟨rem, hrem⟩ := List.takeWhile_prefix (l := wlist) isPunct
  have hrem' : tokenPre wlist ++ rem = wlist := hrem
  have hdrop : wlist.drop (tokenPre wlist).length = rem := by
    have hD := List.drop_left (tokenPre wlist) rem
    rw [hrem'] at hD
    exact hD
  obtain ⟨midR, hmid⟩ := List.takeWhile_prefix (l := rem.reverse) isPunct
  have hsuf : tokenSuf wlist = (rem.reverse.takeWhile isPunct).reverse := by
    show ((wlist.drop (tokenPre wlist).length).reverse.takeWhile isPunct).reverse = _
    rw [hdrop]
  have hrev : rem = midR.reverse ++ (rem.reverse.takeWhile isPunct).reverse := by
    conv_lhs => rw [← List.reverse_reverse rem, ← hmid]
    rw [List.reverse_append]
  have hdecomp : wlist = tokenPre wlist ++ midR.reverse ++ tokenSuf wlist := by
    rw [hsuf, List.append_assoc, ← hrev]
    exact hrem'.symm
  have hclean : tokenClean wlist = midR.reverse := by
    unfold tokenClean
    by_cases hif : tokenPre wlist ≠ [] ∨ tokenSuf wlist ≠ []
    · rw [if_pos hif]
      exact slice_recomp (tokenPre wlist) midR.reverse (tokenSuf wlist) wlist hdecomp
    · rw [if_neg hif]
      rw [not_or, not_not, not_not] at hif
      have h2 := hdecomp
      rw [hif.1, hif.2] at h2
      simpa using h2
  rw [hclean]
  exact hdecomp.symm

/-- C8. First conjunct: whenever the lookup of the lowercased clean core
answers the not-found sentinel, the emitted token is exactly the
original token (punctuation and casing preserved). Second conjunct: the
round-trip of the claim: translating the line with the two cached cores
gives the expected output, with punctuation and capitalization
preserved, and leaves the state untouched. -/
theorem C8_segmenter :
    (∀ (resp : String → Option String) (storeFails : Bool) (now : Int)
       (st : ServiceState) (tok : String),
       (lookupWord resp storeFails now st
           (String.mk ((tokenClean tok.toList).map pyLowerChar))).ret
         = "[no translation found]" →
       (processToken resp storeFails now st tok).1 = tok) ∧
    wordForWordLine (fun _ => none) false 0
        ⟨[("hola", CacheVal.entry "hello" "database"),
          ("mundo", CacheVal.entry "world" "database")],
         [], apisFree, [], 10, [], []⟩ "¡Hola, mundo!"
      = ("¡Hello, world!",
         ⟨[("hola", CacheVal.entry "hello" "database"),
           ("mundo", CacheVal.entry "world" "database")],
          [], apisFree, [], 10, [], []⟩) := by
  constructor
  · intro resp storeFails now st tok h
    rcases tok with ⟨l⟩
    have h' : (lookupWord resp storeFails now st
        (String.mk ((tokenClean l).map pyLowerChar))).ret
          = "[no translation found]" := h
    cases hcl : tokenClean l with
    | nil => simp [processToken, hcl]
    | cons c cs =>
      rw [hcl] at h'
      simp only [List.map_cons] at h'
      simp only [processToken, String.toList, hcl]
      have hr := token_recomp l
      rw [hcl] at hr
      have hflat : tokenPre l ++ c :: (cs ++ tokenSuf l) = l := by
        conv_rhs => rw [← hr]
        simp
      simp [hflat, h']
  · rfl

/-- Witness for C8: a token whose core misses everywhere is emitted
unchanged, punctuation intact. -/
theorem C8_witness :
    (processToken (fun _ => none) false 0 stFree "xyz,").1 = "xyz," := by
  exact C8_segmenter.1 (fun _ => none) false 0 stFree "xyz," rfl

/-! ### C2 -/

theorem countP_filter_split (p q : Int → Bool) (l : List Int) :
    l.countP p = (l.filter q).countP p + (l.filter (fun x => !(q x))).countP p := by
  induction l with
  | nil => simp
  | cons a t ih =>
    by_cases hq : q a = true
    · simp [List.filter_cons, hq, List.countP_cons, ih]
      omega
    · simp [List.filter_cons, hq, List.countP_cons, ih]
      omega

theorem cntW_append (s : Int) (l1 l2 : List Int) :
    cntW s (l1 ++ l2) = cntW s l1 + cntW s l2 := by
  unfold cntW
  exact List.countP_append _ _ _

theorem cntW_prune_split (s now : Int) (l : List Int) :
    cntW s l = cntW s (pruneW now l) + cntW s (staleW now l) := by
  unfold cntW pruneW staleW
  exact countP_filter_split _ _ l

theorem cntW_le_length (s : Int) (l : List Int) : cntW s l ≤ l.length :=
  List.countP_le_length _

theorem cntW_eq_zero_of (s : Int) (l : List Int)
    (h : ∀ a ∈ l, ¬(s - a < 60 ∧ a ≤ s)) : cntW s l = 0 := by
  unfold cntW
  rw [List.countP_eq_zero]
  intro a ha
  simpa using h a ha

theorem mem_staleW (now ts : Int) (l : List Int) (h : ts ∈ staleW now l) :
    ts ∈ l ∧ 60 ≤ now - ts := by
  obtain ⟨h1, h2⟩ := List.mem_filter.mp h
  refine ⟨h1, ?_⟩
  simp only [Bool.not_eq_true', decide_eq_false_iff_not] at h2
  omega

/-- Generalized rolling-window invariant: dead holds previously pruned
instants (stale for every future attempt), live holds the current
window contents (no later than every future attempt), and every rolling
60-second window over the full history dead plus live holds at most N
instants; running the remaining attempts keeps the full history,
admitted instants included, within N per window. -/
theorem admittedRun_window_bound (N : Nat) (nm : String) (times : List Int) :
    ∀ (dead live : List Int), times.Pairwise (· ≤ ·) →
    (∀ ts ∈ dead, ∀ u ∈ times, 60 ≤ u - ts) →
    (∀ ts ∈ live, ∀ u ∈ times, ts ≤ u) →
    (∀ s, cntW s dead + cntW s live ≤ N) →
    ∀ t, cntW t dead + cntW t live + cntW t (admittedRun ⟨nm, N, live⟩ times) ≤ N := by
  induction times with
  | nil =>
    intro dead live _ _ _ hcnt t
    simpa [admittedRun, cntW] using hcnt t
  | cons now rest ih =>
    intro dead live hsort hdead hlive hcnt t
    obtain ⟨hhead, htail⟩ := List.pairwise_cons.mp hsort
    have hdead' : ∀ ts ∈ dead ++ staleW now live, ∀ u ∈ rest, 60 ≤ u - ts := by
      intro ts hts u hu
      rcases List.mem_append.mp hts with h1 | h1
      · exact hdead ts h1 u (List.mem_cons_of_mem _ hu)
      · obtain ⟨_, h60⟩ := mem_staleW now ts live h1
        have hnu : now ≤ u := hhead u hu
        omega
    have hlive' : ∀ ts ∈ pruneW now live ++ [now], ∀ u ∈ rest, ts ≤ u := by
      intro ts hts u hu
      rcases List.mem_append.mp hts with h1 | h1
      · exact hlive ts (List.mem_of_mem_filter h1) u (List.mem_cons_of_mem _ hu)
      · have : ts = now := by simpa using h1
        subst this
        exact hhead u hu
    by_cases hadm : (pruneW now live).length < N
    · have hrun : admittedRun ⟨nm, N, live⟩ (now :: rest) =
          now :: admittedRun ⟨nm, N, pruneW now live ++ [now]⟩ rest := by
        simp [admittedRun, admitApi, hadm]
      have hcnt' : ∀ s, cntW s (dead ++ staleW now live) +
          cntW s (pruneW now live ++ [now]) ≤ N := by
        intro s
        rw [cntW_append, cntW_append]
        by_cases hwin : s - now < 60 ∧ now ≤ s
        · have hd0 : cntW s dead = 0 := by
            refine cntW_eq_zero_of s dead ?_
            intro a ha
            have h60 := hdead a ha now (by simp)
            omega
          have hs0 : cntW s (staleW now live) = 0 := by
            refine cntW_eq_zero_of s (staleW now live) ?_
            intro a ha
            have h60 := (mem_staleW now a live ha).2
            omega
          have hp := cntW_le_length s (pruneW now live)
          have h1 := cntW_le_length s [now]
          simp only [List.length_cons, List.length_nil] at h1
          omega
        · have h1 : cntW s [now] = 0 := by
            refine cntW_eq_zero_of s [now] ?_
            intro a ha
            have : a = now := by simpa using ha
            subst this
            exact hwin
          have hs := hcnt s
          rw [cntW_prune_split s now live] at hs
          omega
      have IH := ih (dead ++ staleW now live) (pruneW now live ++ [now])
        htail hdead' hlive' hcnt' t
      rw [hrun]
      have hC : cntW t (now :: admittedRun ⟨nm, N, pruneW now live ++ [now]⟩ rest) =
          cntW t [now] + cntW t (admittedRun ⟨nm, N, pruneW now live ++ [now]⟩ rest) := by
        rw [show (now :: admittedRun ⟨nm, N, pruneW now live ++ [now]⟩ rest) =
            [now] ++ admittedRun ⟨nm, N, pruneW now live ++ [now]⟩ rest from rfl]
        exact cntW_append _ _ _
      rw [cntW_prune_split t now live, hC]
      rw [cntW_append, cntW_append] at IH
      omega
    · have hrun : admittedRun ⟨nm, N, live⟩ (now :: rest) =
          admittedRun ⟨nm, N, pruneW now live⟩ rest := by
        simp [admittedRun, admitApi, hadm]
      have hlive'' : ∀ ts ∈ pruneW now live, ∀ u ∈ rest, ts ≤ u := by
        intro ts hts u hu
        exact hlive ts (List.mem_of_mem_filter hts) u (List.mem_cons_of_mem _ hu)
      have hcnt' : ∀ s, cntW s (dead ++ staleW now live) +
          cntW s (pruneW now live) ≤ N := by
        intro s
        rw [cntW_append]
        have hs := hcnt s
        rw [cntW_prune_split s now live] at hs
        omega
      have IH := ih (dead ++ staleW now live) (pruneW now live)
        htail hdead' hlive'' hcnt' t
      rw [hrun]
      rw [cntW_prune_split t now live]
      rw [cntW_append] at IH
      omega

/-- C2. The per-provider admission section: (1) it admits exactly when
the pruned list is strictly below the limit; (2) it appends the current
instant exactly on admission, writing back the pruned list either way;
(3) the window length stays at most the limit across any admission
decision; (4) a denied provider is skipped by the fallback chain, whose
outcome is then that of the remaining providers; (5) over any monotone
sequence of attempts against a freshly constructed window, at most N
calls are admitted within every rolling 60-second window. -/
theorem C2_rate_limiter :
    (∀ (now : Int) (api : ApiConfig),
       (admitApi now api).1 =
         decide ((pruneW now api.timestamps).length < api.maxPerMinute)) ∧
    (∀ (now : Int) (api : ApiConfig),
       (admitApi now api).2.timestamps =
         if (pruneW now api.timestamps).length < api.maxPerMinute
         then pruneW now api.timestamps ++ [now]
         else pruneW now api.timestamps) ∧
    (∀ (now : Int) (api : ApiConfig),
       api.timestamps.length ≤ api.maxPerMinute →
       (admitApi now api).2.timestamps.length ≤ api.maxPerMinute) ∧
    (∀ (resp : String → Option String) (now : Int) (api : ApiConfig)
       (rest : List ApiConfig),
       (admitApi now api).1 = false →
       (performOnline resp now (api :: rest)).1 = (performOnline resp now rest).1) ∧
    (∀ (nm : String) (N : Nat) (times : List Int),
       times.Pairwise (· ≤ ·) →
       ∀ t, cntW t (admittedRun ⟨nm, N, []⟩ times) ≤ N) := by
  refine ⟨?_, ?_, ?_, ?_, ?_⟩
  · intro now api
    by_cases h : (pruneW now api.timestamps).length < api.maxPerMinute <;>
      simp [admitApi, h]
  · intro now api
    by_cases h : (pruneW now api.timestamps).length < api.maxPerMinute <;>
      simp [admitApi, h]
  · intro now api hlen
    have hfl : (pruneW now api.timestamps).length ≤ api.timestamps.length :=
      List.length_filter_le _ _
    by_cases h : (pruneW now api.timestamps).length < api.maxPerMinute <;>
      simp [admitApi, h] <;> omega
  · intro resp now api rest h
    simp [performOnline, h]
  · intro nm N times hsort t
    have h := admittedRun_window_bound N nm times [] [] hsort
      (by intro ts hts; simp at hts) (by intro ts hts; simp at hts)
      (by intro s; simp [cntW]) t
    simpa [cntW] using h

/-- Witness for C2: seven attempts, two-per-minute limit; the admitted
instants in the window ending at 63 stay within the limit, and the
length invariant holds on a concrete window. -/
theorem C2_witness :
    cntW 63 (admittedRun ⟨"LibreTranslate", 2, []⟩ [0, 1, 2, 3, 61, 62, 63]) ≤ 2 ∧
    (admitApi 61 ⟨"Lingva", 2, [0, 30]⟩).2.timestamps.length ≤ 2 := by
  constructor
  · exact C2_rate_limiter.2.2.2.2 "LibreTranslate" 2 [0, 1, 2, 3, 61, 62, 63]
      (by decide) 63
  · exact C2_rate_limiter.2.2.1 61 ⟨"Lingva", 2, [0, 30]⟩ (by decide)

end Langtek
